import Mathlib

/-!
Shallow embedding of the CSG conductor-generation core of
`scripts/generateconductors.py`: the classes `ConductorExtent`, `Delta`,
`IsInside`, `Intercept`, the `Assembly` combination nodes
(`AssemblyNot`/`AssemblyAnd`/`AssemblyPlus`/`AssemblyMinus`), the
`Delta.install` packer and the `Grid.getdata` sampling driver.

Modelling conventions: Python double arithmetic is modelled exactly over
`ℚ` (every float literal of the source denotes a rational); numpy arrays of
shape `(6, n)` become functions `Fin 6 → Fin n → ℚ`; numpy
`choose(c, (a, b))` on a comparison mask `c` becomes a pointwise
`if`-selection; Python assertions become `Option` results (`none` when the
assertion fires).
-/

namespace Warp

/-- Far / no-intercept sentinel `largepos` (`top.largepos`, `1.e36` in WARP;
the constant lives in the compiled `top` package, outside the Python
sources, and is modelled by its documented value). -/
def largepos : ℚ := 10 ^ 36

/-- Value of the double-precision constant `pi` used by the Python code
(the IEEE-754 double nearest to the real number pi). -/
def floatPi : ℚ := 884279719003555 / 281474976710656

/-- Per-direction grid spacing vector `array([dx,dx,dy,dy,dz,dz])` used by
`Delta.normalize`. -/
def spacing6 (dx dy dz : ℚ) : Fin 6 → ℚ := fun i =>
  match i with
  | ⟨0, _⟩ => dx
  | ⟨1, _⟩ => dx
  | ⟨2, _⟩ => dy
  | ⟨3, _⟩ => dy
  | ⟨4, _⟩ => dz
  | ⟨5, _⟩ => dz

/-- Minimum of six directional values (`minimum.reduce` over the first
axis of `dels`). -/
def min6 (f : Fin 6 → ℚ) : ℚ :=
  min (f 0) (min (f 1) (min (f 2) (min (f 3) (min (f 4) (f 5)))))

/-- Maximum of six directional values (`maximum.reduce` over the first
axis of `dels`). -/
def max6 (f : Fin 6 → ℚ) : ℚ :=
  max (f 0) (max (f 1) (max (f 2) (max (f 3) (max (f 4) (f 5)))))

/-- Directional distance record over `n` sample points (class `Delta`):
grid indices, physical coordinates, signed distances along the six
directions (-x,+x,-y,+y,-z,+z; positive outside, negative inside), with
parallel voltage and conductor-id arrays, a multigrid level tag and the
Neumann flag.  `parity` is `none` until `setparity` has run (the Python
attribute is unset, or `None`, before classification). -/
structure Delta (n : ℕ) where
  ix : Fin n → ℤ
  iy : Fin n → ℤ
  iz : Fin n → ℤ
  xx : Fin n → ℚ
  yy : Fin n → ℚ
  zz : Fin n → ℚ
  dels : Fin 6 → Fin n → ℚ
  vs : Fin 6 → Fin n → ℚ
  ns : Fin 6 → Fin n → ℤ
  mglevel : Fin n → ℤ
  parity : Option (Fin n → ℤ)
  neumann : Bool

/-- `Delta.__neg__`: negate every distance, keep voltages and ids; the
fresh record is unclassified and tagged level 0 (`setlevels(0)`). -/
def Delta.neg {n : ℕ} (a : Delta n) : Delta n :=
  { a with
    dels := fun i j => -(a.dels i j)
    mglevel := fun _ => 0
    parity := none }

/-- `Delta.__mul__` (the AND rule): requires matching Neumann flags (the
Python assertion is modelled by returning `none`), then per direction and
point selects with `c = less(self.dels, right.dels)`: the larger distance,
carrying that side voltage and id; on a tie `c` is false and the left
operand is kept. -/
def Delta.mul {n : ℕ} (a b : Delta n) : Option (Delta n) :=
  if a.neumann = b.neumann then
    some { a with
      dels := fun i j => if a.dels i j < b.dels i j then b.dels i j else a.dels i j
      vs := fun i j => if a.dels i j < b.dels i j then b.vs i j else a.vs i j
      ns := fun i j => if a.dels i j < b.dels i j then b.ns i j else a.ns i j
      mglevel := fun _ => 0
      parity := none
      neumann := b.neumann }
  else none

/-- `Delta.__add__` (the OR rule): requires matching Neumann flags, then
selects with `c = greater(self.dels, right.dels)`: the smaller distance,
carrying that side voltage and id; on a tie the left operand is kept. -/
def Delta.add {n : ℕ} (a b : Delta n) : Option (Delta n) :=
  if a.neumann = b.neumann then
    some { a with
      dels := fun i j => if b.dels i j < a.dels i j then b.dels i j else a.dels i j
      vs := fun i j => if b.dels i j < a.dels i j then b.vs i j else a.vs i j
      ns := fun i j => if b.dels i j < a.dels i j then b.ns i j else a.ns i j
      mglevel := fun _ => 0
      parity := none
      neumann := b.neumann }
  else none

/-- `Delta.__sub__` (the MINUS rule): requires matching Neumann flags, then
combines the left record with the negation of the right one through the AND
selection (`c = less(self.dels, rdels)` with `rdels = -right.dels`), and
finally forces every entry where the raw distances of the two operands
agree within `1.e-10` to `largepos` (removal of zero-thickness shells). -/
def Delta.sub {n : ℕ} (a b : Delta n) : Option (Delta n) :=
  if a.neumann = b.neumann then
    some { a with
      dels := fun i j =>
        if |a.dels i j - b.dels i j| < 1 / 10 ^ 10 then largepos
        else if a.dels i j < -(b.dels i j) then -(b.dels i j) else a.dels i j
      vs := fun i j => if a.dels i j < -(b.dels i j) then b.vs i j else a.vs i j
      ns := fun i j => if a.dels i j < -(b.dels i j) then b.ns i j else a.ns i j
      mglevel := fun _ => 0
      parity := none
      neumann := b.neumann }
  else none

/-- `Delta.fixneumannzeros(i0, i1, fuzz)`: where direction `i1` lies within
`fuzz` inside the surface, put the point onto the surface in direction `i0`
(value 0) and push direction `i1` deep inside (value -2).  All call sites
have `i0 ≠ i1`, so the two sequential numpy writes act on disjoint rows. -/
def fixneumannzeros {n : ℕ} (i0 i1 : Fin 6) (fuzz : ℚ)
    (dels : Fin 6 → Fin n → ℚ) : Fin 6 → Fin n → ℚ := fun i j =>
  if i = i0 then
    (if -fuzz < dels i1 j ∧ dels i1 j < 0 then 0 else dels i j)
  else if i = i1 then
    (if -fuzz < dels i1 j ∧ dels i1 j < 0 then -2 else dels i j)
  else dels i j

/-- `Delta.normalize(dx, dy, dz)`: divide each directional distance by the
matching cell spacing; for Neumann records additionally run, in source
order, the six `fixneumannzeros` passes, the snap of values just below 1 to
exactly 1, the straddling fix (points with directions on both sides of the
surface get all outside directions forced to -2), and the special-case fix
for points with some distance exactly 0 and others in (-1+fuzz, 0). -/
def Delta.normalize {n : ℕ} (a : Delta n) (dx dy dz : ℚ) : Delta n :=
  let d0 : Fin 6 → Fin n → ℚ := fun i j => a.dels i j / spacing6 dx dy dz i
  if a.neumann then
    let fuzz : ℚ := 1 / 10 ^ 13
    let d1 := fixneumannzeros 0 1 fuzz d0
    let d2 := fixneumannzeros 1 0 fuzz d1
    let d3 := fixneumannzeros 2 3 fuzz d2
    let d4 := fixneumannzeros 3 2 fuzz d3
    let d5 := fixneumannzeros 4 5 fuzz d4
    let d6 := fixneumannzeros 5 4 fuzz d5
    let d7 : Fin 6 → Fin n → ℚ := fun i j =>
      if 1 - fuzz < d6 i j ∧ d6 i j < 1 then 1 else d6 i j
    let d8 : Fin 6 → Fin n → ℚ := fun i j =>
      if min6 (fun k => d7 k j) < 0 ∧ 0 < max6 (fun k => d7 k j) then
        (if 0 < d7 i j then -2 else d7 i j)
      else d7 i j
    let d9 : Fin 6 → Fin n → ℚ := fun i j =>
      if min6 (fun k => |d8 k j|) = 0 then
        (if -1 + fuzz < d8 i j ∧ d8 i j < 0 then -2 else d8 i j)
      else d8 i j
    { a with dels := d9 }
  else
    { a with dels := d0 }

/-- Modelled from the spec: the compiled classification routine
`setconductorparity` called by `Delta.setparity` is Fortran code outside
the Python sources.  Per point: a point deeper than `dfill` inside in every
direction is interior (-1); a point with some direction crossing the
surface within one cell (normalized distance strictly between -1 and 1) is
a cut cell and gets the spatial parity of `ix+iy+iz`; every other point
keeps the far sentinel 999. -/
def classifyParity (dfill : ℚ) (ix iy iz : ℤ) (dels : Fin 6 → ℚ) : ℤ :=
  if ∀ i, dels i ≤ -dfill then -1
  else if ∃ i, -1 < dels i ∧ dels i < 1 then (ix + iy + iz) % 2
  else 999

/-- `Delta.setparity(dfill, fuzzsign)` through the spec-modelled
classifier; for Neumann records the code replaces `dfill` by 0. -/
def Delta.setparity {n : ℕ} (a : Delta n) (dfill : ℚ) : Delta n :=
  let dfl := if a.neumann then 0 else dfill
  { a with parity := some (fun j =>
      classifyParity dfl (a.ix j) (a.iy j) (a.iz j) (fun i => a.dels i j)) }

/-- Sample record on one point with constant data, used to instantiate the
theorems below at concrete inputs. -/
def sampleDelta (v volt : ℚ) (id : ℤ) : Delta 1 where
  ix := fun _ => 0
  iy := fun _ => 0
  iz := fun _ => 0
  xx := fun _ => 0
  yy := fun _ => 0
  zz := fun _ => 0
  dels := fun _ _ => v
  vs := fun _ _ => volt
  ns := fun _ _ => id
  mglevel := fun _ => 0
  parity := none
  neumann := false

/-- Sample record with the Neumann flag set. -/
def sampleDeltaNeu (v : ℚ) : Delta 1 :=
  { sampleDelta v 0 1 with neumann := true }

/-- Axis-aligned bounding box of a conductor (class `ConductorExtent`). -/
structure ConductorExtent where
  mins : Fin 3 → ℚ
  maxs : Fin 3 → ℚ

/-- `ConductorExtent.__neg__`: the complement cannot be bounded, so the
result is the full domain `[-largepos, largepos]` on every axis. -/
def ConductorExtent.neg (_e : ConductorExtent) : ConductorExtent :=
  ⟨fun _ => -largepos, fun _ => largepos⟩

/-- `ConductorExtent.__add__` (OR): elementwise union box. -/
def ConductorExtent.add (e r : ConductorExtent) : ConductorExtent :=
  ⟨fun i => min (e.mins i) (r.mins i), fun i => max (e.maxs i) (r.maxs i)⟩

/-- `ConductorExtent.__mul__` (AND): elementwise intersection box. -/
def ConductorExtent.mul (e r : ConductorExtent) : ConductorExtent :=
  ⟨fun i => max (e.mins i) (r.mins i), fun i => min (e.maxs i) (r.maxs i)⟩

/-- `ConductorExtent.__sub__` (MINUS): the left extent, unchanged. -/
def ConductorExtent.sub (e _r : ConductorExtent) : ConductorExtent :=
  ⟨e.mins, e.maxs⟩

/-- Primitive conductor shape (a leaf `Assembly`): its extent corners, the
per-kind directional grid-distance generator and point-distance generator,
voltage, conductor id and Neumann flag.  The generator functions stand for
the closed-form per-kind distance routines. -/
structure PrimShape where
  mins : Fin 3 → ℚ
  maxs : Fin 3 → ℚ
  gdist : Fin 6 → ℚ → ℚ → ℚ → ℚ
  pdist : ℚ → ℚ → ℚ → ℚ
  voltage : ℚ
  condid : ℤ
  neumann : Bool

/-- Shape tree: a primitive or one of the composite `Assembly` nodes
`AssemblyAnd`, `AssemblyPlus`, `AssemblyMinus`, `AssemblyNot`. -/
inductive Shape where
  | prim (p : PrimShape)
  | cAnd (l r : Shape)
  | cOr (l r : Shape)
  | cMinus (l r : Shape)
  | cNot (l : Shape)

/-- `getextent` of a shape: a leaf reports its own box (`createextent`),
and each composite combines the children extents with the matching
`ConductorExtent` operator. -/
def Shape.getextent : Shape → ConductorExtent
  | .prim p => ⟨p.mins, p.maxs⟩
  | .cAnd l r => l.getextent.mul r.getextent
  | .cOr l r => l.getextent.add r.getextent
  | .cMinus l r => l.getextent.sub r.getextent
  | .cNot l => l.getextent.neg

/-- Conductor id attribute propagated along composites: every composite
`Assembly` node takes `l.condid` from its left child, so the id attribute
of any shape is the id of its leftmost primitive. -/
def Shape.leftCondid : Shape → ℤ
  | .prim p => p.condid
  | .cAnd l _ => l.leftCondid
  | .cOr l _ => l.leftCondid
  | .cMinus l _ => l.leftCondid
  | .cNot l => l.leftCondid

/-- Point-inside record (class `IsInside`): per point a value that is the
conductor id when the point is inside and 0 when outside, plus the id and
aura the record was built with.  (The coordinate arrays of the Python
class are bookkeeping and are omitted.) -/
structure IsInside (n : ℕ) where
  isinside : Fin n → ℚ
  condid : ℚ
  aura : ℚ

/-- The `IsInside` constructor branch taking a precomputed 0/1 flag array:
it stores `isinside * condid`. -/
def IsInside.ofFlags {n : ℕ} (flags : Fin n → ℚ) (condid aura : ℚ) :
    IsInside n :=
  ⟨fun j => flags j * condid, condid, aura⟩

/-- The `IsInside` constructor branch running a distance generator: it
stores `where(distance <= aura, condid, 0.)`. -/
def IsInside.ofDistance {n : ℕ} (dist : Fin n → ℚ) (condid aura : ℚ) :
    IsInside n :=
  ⟨fun j => if dist j ≤ aura then condid else 0, condid, aura⟩

/-- `IsInside.__neg__`: logical not of the flags, same condid and aura. -/
def IsInside.neg {n : ℕ} (s : IsInside n) : IsInside n :=
  IsInside.ofFlags (fun j => if s.isinside j = 0 then 1 else 0) s.condid s.aura

/-- `IsInside.__mul__` (AND): logical and of the flags, condid and aura of
the left operand. -/
def IsInside.mul {n : ℕ} (s r : IsInside n) : IsInside n :=
  IsInside.ofFlags
    (fun j => if s.isinside j ≠ 0 ∧ r.isinside j ≠ 0 then 1 else 0)
    s.condid s.aura

/-- `IsInside.__add__` (OR): logical or of the flags, condid and aura of
the left operand. -/
def IsInside.add {n : ℕ} (s r : IsInside n) : IsInside n :=
  IsInside.ofFlags
    (fun j => if s.isinside j ≠ 0 ∨ r.isinside j ≠ 0 then 1 else 0)
    s.condid s.aura

/-- `IsInside.__sub__` (MINUS): left and not right, condid and aura of the
left operand. -/
def IsInside.sub {n : ℕ} (s r : IsInside n) : IsInside n :=
  IsInside.ofFlags
    (fun j => if s.isinside j ≠ 0 ∧ r.isinside j = 0 then 1 else 0)
    s.condid s.aura

/-- `isinside` query of a shape at a batch of points: a leaf runs its
distance generator (`Assembly.isinside`), composites combine the children
records with the `IsInside` operators
(`AssemblyAnd`/`AssemblyPlus`/`AssemblyMinus`/`AssemblyNot`). -/
def Shape.isinside {n : ℕ} (s : Shape) (xx yy zz : Fin n → ℚ) (aura : ℚ) :
    IsInside n :=
  match s with
  | .prim p =>
      IsInside.ofDistance (fun j => p.pdist (xx j) (yy j) (zz j))
        (p.condid : ℚ) aura
  | .cAnd l r => (l.isinside xx yy zz aura).mul (r.isinside xx yy zz aura)
  | .cOr l r => (l.isinside xx yy zz aura).add (r.isinside xx yy zz aura)
  | .cMinus l r => (l.isinside xx yy zz aura).sub (r.isinside xx yy zz aura)
  | .cNot l => (l.isinside xx yy zz aura).neg

/-- Boolean reading of an `IsInside` value: a point counts as inside when
the stored value is nonzero. -/
def IsInside.inb {n : ℕ} (s : IsInside n) (j : Fin n) : Bool :=
  decide (s.isinside j ≠ 0)

/-- Trajectory-intercept record (class `Intercept`): original points,
velocities, candidate intercept coordinates and the two surface-normal
angles.  (The conductor handle and condid bookkeeping are omitted.) -/
structure Intercept (n : ℕ) where
  xx : Fin n → ℚ
  yy : Fin n → ℚ
  zz : Fin n → ℚ
  vx : Fin n → ℚ
  vy : Fin n → ℚ
  vz : Fin n → ℚ
  xi : Fin n → ℚ
  yi : Fin n → ℚ
  zi : Fin n → ℚ
  itheta : Fin n → ℚ
  iphi : Fin n → ℚ

/-- `Intercept.magsq`: squared distance from the original point to the
candidate intercept point. -/
def Intercept.magsq {n : ℕ} (s : Intercept n) (j : Fin n) : ℚ :=
  (s.xx j - s.xi j) ^ 2 + (s.yy j - s.yi j) ^ 2 + (s.zz j - s.zi j) ^ 2

/-- Surface fuzz of `Intercept.binaryop`: candidate points closer than this
to the combined surface count as lying on it. -/
def surffuzz : ℚ := 1 / 10 ^ 9

/-- Selector `cc` of `Intercept.binaryop`: prefer the candidate closer to
the combined surface; when both candidates lie on the surface (within
`surffuzz`), prefer the one closer to the original point. -/
def interceptChoose (si ri ds dr : ℚ) : Bool :=
  if si < surffuzz ∧ ri < surffuzz then decide (ds < dr) else decide (si < ri)

/-- `Intercept.binaryop(right, cond, addpi)`: `sdist j` and `rdist j` are
the signed distances from the combined conductor `cond` to the two
candidate points (`cond.distance` evaluated by the caller); the code takes
their absolute values, selects a candidate with `interceptChoose` (the
right candidate angle is offset by `addpi`), and overrides the result with
the sentinel (`largepos` coordinates, zero angles) at points where neither
candidate lies on the combined surface within `surffuzz`. -/
def Intercept.binaryop {n : ℕ} (s r : Intercept n) (sdist rdist : Fin n → ℚ)
    (addpi : ℚ) : Intercept n :=
  let si : Fin n → ℚ := fun j => |sdist j|
  let ri : Fin n → ℚ := fun j => |rdist j|
  let cc : Fin n → Bool := fun j =>
    interceptChoose (si j) (ri j) (s.magsq j) (r.magsq j)
  { xx := s.xx, yy := s.yy, zz := s.zz, vx := s.vx, vy := s.vy, vz := s.vz
    xi := fun j => if min (si j) (ri j) < surffuzz then
        (if cc j then s.xi j else r.xi j) else largepos
    yi := fun j => if min (si j) (ri j) < surffuzz then
        (if cc j then s.yi j else r.yi j) else largepos
    zi := fun j => if min (si j) (ri j) < surffuzz then
        (if cc j then s.zi j else r.zi j) else largepos
    itheta := fun j => if min (si j) (ri j) < surffuzz then
        (if cc j then s.itheta j else r.itheta j + addpi) else 0
    iphi := fun j => if min (si j) (ri j) < surffuzz then
        (if cc j then s.iphi j else r.iphi j) else 0 }

/-- `Intercept.__mul__` (AND): `binaryop` with no angle offset. -/
def Intercept.andOp {n : ℕ} (s r : Intercept n) (sdist rdist : Fin n → ℚ) :
    Intercept n :=
  s.binaryop r sdist rdist 0

/-- `Intercept.__add__` (OR): `binaryop` with no angle offset. -/
def Intercept.orOp {n : ℕ} (s r : Intercept n) (sdist rdist : Fin n → ℚ) :
    Intercept n :=
  s.binaryop r sdist rdist 0

/-- `Intercept.__sub__` (MINUS): `binaryop` with the angle of a chosen
right-hand candidate offset by pi (complement orientation). -/
def Intercept.minusOp {n : ℕ} (s r : Intercept n) (sdist rdist : Fin n → ℚ) :
    Intercept n :=
  s.binaryop r sdist rdist floatPi

/-- One row of the solver interior array: grid index, a single voltage and
conductor id, multigrid level (`conductors.interior`). -/
structure InteriorRow where
  ix : ℤ
  iy : ℤ
  iz : ℤ
  volt : ℚ
  numb : ℤ
  ilevel : ℤ

/-- One row of an even/odd subgrid array: grid index, all six distances,
voltages and conductor ids, multigrid level
(`conductors.evensubgrid` / `conductors.oddsubgrid`). -/
structure SubgridRow where
  ix : ℤ
  iy : ℤ
  iz : ℤ
  dels : Fin 6 → ℚ
  volt : Fin 6 → ℚ
  numb : Fin 6 → ℤ
  ilevel : ℤ

/-- The three destination solver arrays (`f3d.conductors`); the packer only
appends to them. -/
structure Conductors where
  interior : List InteriorRow
  evensubgrid : List SubgridRow
  oddsubgrid : List SubgridRow

/-- `Delta.install` for one data record of the `datalist` loop (the loop
folds this over the accumulated records): points with parity -1 are
appended to the interior array, taking voltage and id from the stored
direction-0 (`-x`) entries `data.vs[0,:]` and `data.ns[0,:]` only; points
with parity 0 and 1 are appended to the even and odd subgrid arrays with
all six distances (times `delssign`, -1 for Neumann records), voltages and
ids.  A record that was never classified is skipped. -/
def Delta.install {n : ℕ} (a : Delta n) (c : Conductors) : Conductors :=
  match a.parity with
  | none => c
  | some par =>
    let delssign : ℚ := if a.neumann then -1 else 1
    { interior := c.interior ++
        ((List.finRange n).filter (fun j => decide (par j = -1))).map (fun j =>
          ⟨a.ix j, a.iy j, a.iz j, a.vs 0 j, a.ns 0 j, a.mglevel j⟩)
      evensubgrid := c.evensubgrid ++
        ((List.finRange n).filter (fun j => decide (par j = 0))).map (fun j =>
          ⟨a.ix j, a.iy j, a.iz j, fun i => delssign * a.dels i j,
           fun i => a.vs i j, fun i => a.ns i j, a.mglevel j⟩)
      oddsubgrid := c.oddsubgrid ++
        ((List.finRange n).filter (fun j => decide (par j = 1))).map (fun j =>
          ⟨a.ix j, a.iy j, a.iz j, fun i => delssign * a.dels i j,
           fun i => a.vs i j, fun i => a.ns i j, a.mglevel j⟩) }

/-- One mesh point of the sampler: grid indices and coordinates. -/
structure GridPt where
  ix : ℤ
  iy : ℤ
  iz : ℤ
  x : ℚ
  y : ℚ
  z : ℚ

/-- Mesh sampler (class `Grid`), restricted to one multigrid level and no
symmetry reduction: cell spacings, the crop/domain bounds used for
pruning, and the list of mesh points of the level. -/
structure Grid where
  dx : ℚ
  dy : ℚ
  dz : ℚ
  xmin : ℚ
  xmax : ℚ
  ymin : ℚ
  ymax : ℚ
  zmin : ℚ
  zmax : ℚ
  pts : List GridPt

/-- `Grid.checkoverlap`: clip the extent against the crop bounds and
report whether a nonempty (up to one cell of slack) region remains. -/
def Grid.checkoverlap (g : Grid) (e : ConductorExtent) : Bool :=
  let xmn := max (e.mins 0) g.xmin
  let ymn := max (e.mins 1) g.ymin
  let zmn := max (e.mins 2) g.zmin
  let xmx := min (e.maxs 0) g.xmax
  let ymx := min (e.maxs 1) g.ymax
  let zmx := min (e.maxs 2) g.zmax
  if zmn - g.dz > zmx ∨ xmn - g.dx > xmx ∨ ymn - g.dy > ymx then false
  else true

/-- Candidate mesh points for a shape (`Grid.getmesh` at one level, with
the index-range arithmetic abstracted to a containment test): the mesh
points lying in the overlap of the crop box and the shape extent. -/
def Grid.meshPts (g : Grid) (e : ConductorExtent) : List GridPt :=
  g.pts.filter (fun p => decide (
    max (e.mins 0) g.xmin ≤ p.x ∧ p.x ≤ min (e.maxs 0) g.xmax ∧
    max (e.mins 1) g.ymin ≤ p.y ∧ p.y ≤ min (e.maxs 1) g.ymax ∧
    max (e.mins 2) g.zmin ≤ p.z ∧ p.z ≤ min (e.maxs 2) g.zmax))

/-- `Assembly.griddistance` for a leaf: run the directional generator at
every point; voltages and ids are filled with the shape voltage and
condid (`setvoltages` / `setcondids`), the level with 0. -/
def primDelta (p : PrimShape) (pts : List GridPt) : Delta pts.length :=
  { ix := fun k => (pts.get k).ix
    iy := fun k => (pts.get k).iy
    iz := fun k => (pts.get k).iz
    xx := fun k => (pts.get k).x
    yy := fun k => (pts.get k).y
    zz := fun k => (pts.get k).z
    dels := fun i k => p.gdist i (pts.get k).x (pts.get k).y (pts.get k).z
    vs := fun _ _ => p.voltage
    ns := fun _ _ => p.condid
    mglevel := fun _ => 0
    parity := none
    neumann := p.neumann }

/-- `griddistance` of a shape tree over a batch of points: leaves sample
their generator, composites combine the children records with the `Delta`
operators; `none` records a failed Neumann assertion in a combination. -/
def Shape.griddistance (s : Shape) (pts : List GridPt) :
    Option (Delta pts.length) :=
  match s with
  | .prim p => some (primDelta p pts)
  | .cAnd l r => (l.griddistance pts).bind fun dl =>
      (r.griddistance pts).bind fun dr => dl.mul dr
  | .cOr l r => (l.griddistance pts).bind fun dl =>
      (r.griddistance pts).bind fun dr => dl.add dr
  | .cMinus l r => (l.griddistance pts).bind fun dl =>
      (r.griddistance pts).bind fun dr => dl.sub dr
  | .cNot l => (l.griddistance pts).map Delta.neg

/-- One surviving sampled point after `Delta.clean`: indices, the six
distances, voltages, ids, parity and level. -/
structure CondRow where
  ix : ℤ
  iy : ℤ
  iz : ℤ
  dels : Fin 6 → ℚ
  vs : Fin 6 → ℚ
  ns : Fin 6 → ℤ
  parity : ℤ
  mglevel : ℤ

/-- `Delta.clean`, flattened to explicit rows: keep the points with parity
below 2 (interior points and cut cells), dropping far points. -/
def Delta.rows {n : ℕ} (a : Delta n) : List CondRow :=
  match a.parity with
  | none => []
  | some par =>
    ((List.finRange n).filter (fun j => decide (par j < 2))).map (fun j =>
      ⟨a.ix j, a.iy j, a.iz j, fun i => a.dels i j, fun i => a.vs i j,
       fun i => a.ns i j, par j, a.mglevel j⟩)

/-- `Grid.getdata` at one level: a shape whose extent misses the grid is
skipped; an `AssemblyPlus` composite is never sampled as one shape but
decomposed recursively (left child first), so each child is pruned against
its own extent; any other shape is sampled over the mesh points inside its
extent, then normalized, classified and cleaned. -/
def Grid.getdata (g : Grid) (dfill : ℚ) : Shape → Option (List CondRow)
  | .cOr l r =>
    if g.checkoverlap (Shape.cOr l r).getextent then
      (g.getdata dfill l).bind fun rl =>
        (g.getdata dfill r).map fun rr => rl ++ rr
    else some []
  | a =>
    if g.checkoverlap a.getextent then
      (a.griddistance (g.meshPts a.getextent)).map fun d =>
        ((d.normalize g.dx g.dy g.dz).setparity dfill).rows
    else some []

/-- Sampling a shape as a single unit against its own extent: the
non-decomposed branch of `Grid.getdata`, applicable to any shape.  The
comparison in the C8 claim is between `getdata` on an OR composite and
this function on the same composite (the union extent). -/
def Grid.getdataAsOne (g : Grid) (dfill : ℚ) (a : Shape) :
    Option (List CondRow) :=
  if g.checkoverlap a.getextent then
    (a.griddistance (g.meshPts a.getextent)).map fun d =>
      ((d.normalize g.dx g.dy g.dz).setparity dfill).rows
  else some []

/-- Constant-zero coordinate batch for one-point concrete instances. -/
def zpt : Fin 1 → ℚ := fun _ => 0

/-- Concrete primitive with conductor id 0 (the id is caller-supplied, so
this is constructible), lying inside everywhere. -/
def primZero : PrimShape where
  mins := fun _ => -1
  maxs := fun _ => 1
  gdist := fun _ _ _ _ => -1
  pdist := fun _ _ _ => -1
  voltage := 0
  condid := 0
  neumann := false

/-- Concrete primitive inside everywhere, conductor id 2, voltage 5. -/
def primIn : PrimShape :=
  { primZero with condid := 2, voltage := 5 }

/-- Concrete primitive outside everywhere, conductor id 3. -/
def primOut : PrimShape :=
  { primZero with
      gdist := fun _ _ _ _ => 1, pdist := fun _ _ _ => 1, condid := 3 }

/-- Concrete primitive inside everywhere, conductor id 5. -/
def primIn5 : PrimShape :=
  { primIn with condid := 5 }

/-- Concrete primitive whose extent is the cube [-5,5]^3 and whose sampled
points lie five cells deep inside it. -/
def primDeep : PrimShape :=
  { primZero with
      mins := fun _ => -5, maxs := fun _ => 5,
      gdist := fun _ _ _ _ => -5, condid := 4 }

/-- Concrete primitive whose sampled points lie exactly on its surface. -/
def primSurf : PrimShape :=
  { primZero with gdist := fun _ _ _ _ => 0, condid := 5, voltage := 7 }

/-- One-point mesh at the origin with unit spacings and a wide crop box. -/
def grid1 : Grid where
  dx := 1
  dy := 1
  dz := 1
  xmin := -10
  xmax := 10
  ymin := -10
  ymax := 10
  zmin := -10
  zmax := 10
  pts := [⟨0, 0, 0, 0, 0, 0⟩]

/-- Concrete intercept record: original point at the origin, candidate at
(1,0,0), angles 3 and 4. -/
def icptA : Intercept 1 where
  xx := zpt
  yy := zpt
  zz := zpt
  vx := zpt
  vy := zpt
  vz := zpt
  xi := fun _ => 1
  yi := zpt
  zi := zpt
  itheta := fun _ => 3
  iphi := fun _ => 4

/-- Concrete intercept record: candidate at (2,0,0), angles 5 and 6. -/
def icptB : Intercept 1 :=
  { icptA with xi := fun _ => 2, itheta := fun _ => 5, iphi := fun _ => 6 }

/-- Classified one-point record lying deep inside a conductor. -/
def deltaInterior : Delta 1 :=
  (sampleDelta (-5) 5 7).setparity 2

/-- Classified one-point cut-cell record at an even-parity index. -/
def deltaEven : Delta 1 :=
  (sampleDelta 0 5 7).setparity 2

/-- Classified one-point cut-cell record at an odd-parity index. -/
def deltaOdd : Delta 1 :=
  { sampleDelta 0 5 7 with ix := fun _ => 1 }.setparity 2

/-- Empty destination solver arrays. -/
def conductors0 : Conductors :=
  ⟨[], [], []⟩

theorem largepos_pos : (0 : ℚ) < largepos := by norm_num [largepos]

theorem one_lt_largepos : (1 : ℚ) < largepos := by norm_num [largepos]

/-- C2: for every pair of records over the same points with matching
Neumann flags, the AND combination takes per direction and point the larger
signed distance together with that operand voltage and conductor id,
preferring the left operand when the two distances are equal, and the OR
combination takes the smaller, with the analogous left-preferring
tie-break. -/
theorem C2_and_max_or_min {n : ℕ} (a b : Delta n) (h : a.neumann = b.neumann)
    (i : Fin 6) (j : Fin n) :
    ∃ p q, a.mul b = some p ∧ a.add b = some q ∧
      p.dels i j = max (a.dels i j) (b.dels i j) ∧
      q.dels i j = min (a.dels i j) (b.dels i j) ∧
      (b.dels i j ≤ a.dels i j → p.vs i j = a.vs i j ∧ p.ns i j = a.ns i j) ∧
      (a.dels i j < b.dels i j → p.vs i j = b.vs i j ∧ p.ns i j = b.ns i j) ∧
      (a.dels i j ≤ b.dels i j → q.vs i j = a.vs i j ∧ q.ns i j = a.ns i j) ∧
      (b.dels i j < a.dels i j → q.vs i j = b.vs i j ∧ q.ns i j = b.ns i j) := by
  unfold Delta.mul Delta.add
  rw [if_pos h, if_pos h]
  refine ⟨_, _, rfl, rfl, ?_, ?_, ?_, ?_, ?_, ?_⟩
  · show (if a.dels i j < b.dels i j then b.dels i j else a.dels i j)
        = max (a.dels i j) (b.dels i j)
    by_cases hc : a.dels i j < b.dels i j
    · rw [if_pos hc, max_eq_right hc.le]
    · rw [if_neg hc, max_eq_left (not_lt.mp hc)]
  · show (if b.dels i j < a.dels i j then b.dels i j else a.dels i j)
        = min (a.dels i j) (b.dels i j)
    by_cases hc : b.dels i j < a.dels i j
    · rw [if_pos hc, min_eq_right hc.le]
    · rw [if_neg hc, min_eq_left (not_lt.mp hc)]
  · intro hba
    have hc : ¬ a.dels i j < b.dels i j := not_lt.mpr hba
    exact ⟨if_neg hc, if_neg hc⟩
  · intro hab
    exact ⟨if_pos hab, if_pos hab⟩
  · intro hab
    have hc : ¬ b.dels i j < a.dels i j := not_lt.mpr hab
    exact ⟨if_neg hc, if_neg hc⟩
  · intro hba
    exact ⟨if_pos hba, if_pos hba⟩

/-- Witness for C2 at two concrete one-point records whose left distance is
the smaller one: the AND result keeps distance 2 and the OR result keeps
distance 1. -/
theorem C2_and_max_or_min_witness :
    ((sampleDelta 1 5 7).mul (sampleDelta 2 6 8)).map (fun p => p.dels 0 0)
        = some 2 ∧
    ((sampleDelta 1 5 7).add (sampleDelta 2 6 8)).map (fun q => q.dels 0 0)
        = some 1 := by
  obtain ⟨p, q, hp, hq, hpd, hqd, -⟩ :=
    C2_and_max_or_min (sampleDelta 1 5 7) (sampleDelta 2 6 8) rfl 0 0
  constructor
  · rw [hp]
    show some (p.dels 0 0) = some 2
    rw [hpd]
    decide
  · rw [hq]
    show some (q.dels 0 0) = some 1
    rw [hqd]
    decide

/-- Helper: a point all of whose normalized distances equal the far
sentinel is classified far by the spec-modelled classifier, for any
nonnegative fill depth. -/
theorem classifyParity_far (dfill : ℚ) (hd : 0 ≤ dfill) (ix iy iz : ℤ)
    (dels : Fin 6 → ℚ) (h : ∀ i, dels i = largepos) :
    classifyParity dfill ix iy iz dels = 999 := by
  unfold classifyParity
  rw [if_neg, if_neg]
  · rintro ⟨i, -, hlt⟩
    rw [h i] at hlt
    exact absurd hlt (not_lt.mpr one_lt_largepos.le)
  · intro hint
    have h0 := hint 0
    rw [h 0] at h0
    have hle : largepos ≤ 0 := h0.trans (by linarith)
    exact absurd hle (not_le.mpr largepos_pos)

/-- C1: the MINUS combination applies the AND (maximum) rule to the left
record and the negated right record, then forces every entry where the two
raw distances agree within 1e-10 to the far sentinel `largepos`; in
particular subtracting a record from an identical copy of itself yields
`largepos` everywhere and the points classify as far (999) for any
nonnegative fill depth, never as a hairline shell. -/
theorem C1_minus_shell_elimination {n : ℕ} (a b : Delta n)
    (h : a.neumann = b.neumann) :
    ∃ r, a.sub b = some r ∧
      (∀ i j, |a.dels i j - b.dels i j| < 1 / 10 ^ 10 →
        r.dels i j = largepos) ∧
      (∀ i j, ¬ |a.dels i j - b.dels i j| < 1 / 10 ^ 10 →
        r.dels i j = max (a.dels i j) (-(b.dels i j))) ∧
      (b.dels = a.dels → ∀ dfill (j : Fin n), 0 ≤ dfill →
        (∀ i, r.dels i j = largepos) ∧
        classifyParity dfill (a.ix j) (a.iy j) (a.iz j)
          (fun i => r.dels i j) = 999) := by
  unfold Delta.sub
  rw [if_pos h]
  refine ⟨_, rfl, ?_, ?_, ?_⟩
  · intro i j hij
    exact if_pos hij
  · intro i j hij
    show (if |a.dels i j - b.dels i j| < 1 / 10 ^ 10 then largepos
        else if a.dels i j < -(b.dels i j) then -(b.dels i j) else a.dels i j)
        = max (a.dels i j) (-(b.dels i j))
    rw [if_neg hij]
    by_cases hc : a.dels i j < -(b.dels i j)
    · rw [if_pos hc, max_eq_right hc.le]
    · rw [if_neg hc, max_eq_left (not_lt.mp hc)]
  · intro hba dfill j hd
    have hc : ∀ i : Fin 6, |a.dels i j - b.dels i j| < 1 / 10 ^ 10 := by
      intro i
      rw [hba, sub_self, abs_zero]
      norm_num
    have hall : ∀ i : Fin 6,
        (if |a.dels i j - b.dels i j| < 1 / 10 ^ 10 then largepos
         else if a.dels i j < -(b.dels i j) then -(b.dels i j)
         else a.dels i j) = largepos := fun i => if_pos (hc i)
    exact ⟨fun i => hall i, classifyParity_far dfill hd _ _ _ _ (fun i => hall i)⟩

/-- Witness for C1: subtracting the concrete one-point record from itself
produces the far sentinel in direction 0 and the far parity 999. -/
theorem C1_minus_shell_elimination_witness :
    ((sampleDelta 1 5 7).sub (sampleDelta 1 5 7)).map (fun r =>
        (r.dels 0 0,
         classifyParity 2 ((sampleDelta 1 5 7).ix 0) ((sampleDelta 1 5 7).iy 0)
           ((sampleDelta 1 5 7).iz 0) (fun i => r.dels i 0)))
      = some (largepos, 999) := by
  obtain ⟨r, hr, -, -, hid⟩ :=
    C1_minus_shell_elimination (sampleDelta 1 5 7) (sampleDelta 1 5 7) rfl
  obtain ⟨hdel, hpar⟩ := hid rfl 2 0 (by norm_num)
  rw [hr]
  show some (r.dels 0 0, classifyParity 2 ((sampleDelta 1 5 7).ix 0)
      ((sampleDelta 1 5 7).iy 0) ((sampleDelta 1 5 7).iz 0)
      (fun i => r.dels i 0)) = some (largepos, 999)
  rw [hdel 0, hpar]

/-- C9: each binary Delta combination (AND, OR, MINUS) requires both
operands to have the same Neumann flag: on a mismatch the assertion fires
(modelled as `none`) and no record is produced, and a produced record
carries the shared flag. -/
theorem C9_neumann_assertion {n : ℕ} (a b : Delta n) :
    ((a.mul b).isSome ↔ a.neumann = b.neumann) ∧
    ((a.add b).isSome ↔ a.neumann = b.neumann) ∧
    ((a.sub b).isSome ↔ a.neumann = b.neumann) ∧
    (∀ c, a.mul b = some c → c.neumann = a.neumann ∧ c.neumann = b.neumann) ∧
    (∀ c, a.add b = some c → c.neumann = a.neumann ∧ c.neumann = b.neumann) ∧
    (∀ c, a.sub b = some c → c.neumann = a.neumann ∧ c.neumann = b.neumann) := by
  unfold Delta.mul Delta.add Delta.sub
  by_cases h : a.neumann = b.neumann
  · rw [if_pos h, if_pos h, if_pos h]
    refine ⟨iff_of_true rfl h, iff_of_true rfl h, iff_of_true rfl h,
      ?_, ?_, ?_⟩ <;>
      (rintro c hc; cases hc; exact ⟨h.symm, rfl⟩)
  · rw [if_neg h, if_neg h, if_neg h]
    refine ⟨iff_of_false (by simp) h, iff_of_false (by simp) h,
      iff_of_false (by simp) h, ?_, ?_, ?_⟩ <;>
      (rintro c hc; cases hc)

/-- Witness for C9 at concrete records: a Neumann record combined with a
Dirichlet record yields no result under any of the three combinations. -/
theorem C9_neumann_assertion_witness :
    (((sampleDeltaNeu 1).mul (sampleDelta 1 5 7)).isSome ↔
        (sampleDeltaNeu 1).neumann = (sampleDelta 1 5 7).neumann) ∧
    (((sampleDeltaNeu 1).add (sampleDelta 1 5 7)).isSome ↔
        (sampleDeltaNeu 1).neumann = (sampleDelta 1 5 7).neumann) ∧
    (((sampleDeltaNeu 1).sub (sampleDelta 1 5 7)).isSome ↔
        (sampleDeltaNeu 1).neumann = (sampleDelta 1 5 7).neumann) ∧
    (∀ c, (sampleDeltaNeu 1).mul (sampleDelta 1 5 7) = some c →
        c.neumann = (sampleDeltaNeu 1).neumann ∧
        c.neumann = (sampleDelta 1 5 7).neumann) ∧
    (∀ c, (sampleDeltaNeu 1).add (sampleDelta 1 5 7) = some c →
        c.neumann = (sampleDeltaNeu 1).neumann ∧
        c.neumann = (sampleDelta 1 5 7).neumann) ∧
    (∀ c, (sampleDeltaNeu 1).sub (sampleDelta 1 5 7) = some c →
        c.neumann = (sampleDeltaNeu 1).neumann ∧
        c.neumann = (sampleDelta 1 5 7).neumann) :=
  C9_neumann_assertion (sampleDeltaNeu 1) (sampleDelta 1 5 7)

/-- C4: the extent of AND(a,b) is the box of elementwise maxima of the
children minima and elementwise minima of their maxima; the extent of
OR(a,b) is the elementwise min..max union box; the extent of NOT(a) is the
unbounded full domain; and the extent of MINUS(a,b) is the extent of a,
unchanged. -/
theorem C4_extent_algebra (a b : Shape) (i : Fin 3) :
    (Shape.getextent (.cAnd a b)).mins i
        = max (a.getextent.mins i) (b.getextent.mins i) ∧
    (Shape.getextent (.cAnd a b)).maxs i
        = min (a.getextent.maxs i) (b.getextent.maxs i) ∧
    (Shape.getextent (.cOr a b)).mins i
        = min (a.getextent.mins i) (b.getextent.mins i) ∧
    (Shape.getextent (.cOr a b)).maxs i
        = max (a.getextent.maxs i) (b.getextent.maxs i) ∧
    (Shape.getextent (.cNot a)).mins i = -largepos ∧
    (Shape.getextent (.cNot a)).maxs i = largepos ∧
    Shape.getextent (.cMinus a b) = a.getextent :=
  ⟨rfl, rfl, rfl, rfl, rfl, rfl, rfl⟩

/-- Helper: `normalize` leaves the Neumann flag unchanged. -/
theorem normalize_neumann {n : ℕ} (b : Delta n) (dx dy dz : ℚ) :
    (b.normalize dx dy dz).neumann = b.neumann := by
  simp only [Delta.normalize]
  split <;> rfl

/-- Helper: `normalize` leaves the grid indices unchanged. -/
theorem normalize_ix {n : ℕ} (b : Delta n) (dx dy dz : ℚ) :
    (b.normalize dx dy dz).ix = b.ix := by
  simp only [Delta.normalize]
  split <;> rfl

/-- Helper: `normalize` leaves the grid indices unchanged. -/
theorem normalize_iy {n : ℕ} (b : Delta n) (dx dy dz : ℚ) :
    (b.normalize dx dy dz).iy = b.iy := by
  simp only [Delta.normalize]
  split <;> rfl

/-- Helper: `normalize` leaves the grid indices unchanged. -/
theorem normalize_iz {n : ℕ} (b : Delta n) (dx dy dz : ℚ) :
    (b.normalize dx dy dz).iz = b.iz := by
  simp only [Delta.normalize]
  split <;> rfl

/-- Helper: on a record with the Neumann flag clear, `normalize` divides
each directional distance by the matching spacing and does nothing else. -/
theorem normalize_dels_of_not_neumann {n : ℕ} (b : Delta n)
    (hb : b.neumann = false) (dx dy dz : ℚ) :
    (b.normalize dx dy dz).dels = fun i j => b.dels i j / spacing6 dx dy dz i := by
  simp only [Delta.normalize, hb, Bool.false_eq_true, if_false]

/-- C5 fails on the code: `normalize` divides by the spacings on every
call, so a second call with the same spacings is not a no-op.  Concretely,
a record with raw distance 2 normalized twice with spacing 2 holds 1/2
after the second call, not the 1 produced by the first call. -/
theorem C5_counterexample :
    (((sampleDelta 2 5 7).normalize 2 2 2).normalize 2 2 2).dels 0 0 ≠
      ((sampleDelta 2 5 7).normalize 2 2 2).dels 0 0 := by
  have h0 : (sampleDelta 2 5 7).neumann = false := rfl
  have h1 : ((sampleDelta 2 5 7).normalize 2 2 2).neumann = false := by
    rw [normalize_neumann]
    exact h0
  have hsp : spacing6 2 2 2 0 = 2 := rfl
  have hd : (sampleDelta 2 5 7).dels 0 0 = 2 := rfl
  simp only [normalize_dels_of_not_neumann _ h1 2 2 2,
    normalize_dels_of_not_neumann _ h0 2 2 2, hsp, hd]
  norm_num

/-- C5 amended: for a record with the Neumann flag clear, a second
`normalize` with the same spacings divides each distance by its spacing
again, leaving the raw distance over the squared spacing; the second call
agrees with the first only in directions whose spacing is 1. -/
theorem C5_normalize_not_idempotent {n : ℕ} (a : Delta n)
    (h : a.neumann = false) (dx dy dz : ℚ) (i : Fin 6) (j : Fin n) :
    ((a.normalize dx dy dz).normalize dx dy dz).dels i j
        = a.dels i j / (spacing6 dx dy dz i) ^ 2 ∧
    (spacing6 dx dy dz i = 1 →
      ((a.normalize dx dy dz).normalize dx dy dz).dels i j
        = (a.normalize dx dy dz).dels i j) := by
  have h1 : (a.normalize dx dy dz).neumann = false := by
    rw [normalize_neumann, h]
  have e2 := normalize_dels_of_not_neumann (a.normalize dx dy dz) h1 dx dy dz
  have e1 := normalize_dels_of_not_neumann a h dx dy dz
  constructor
  · simp only [e2, e1]
    rw [div_div, ← pow_two]
  · intro hsp
    simp only [e2, e1, hsp]
    norm_num

/-- Witness for C5 amended at a concrete record: normalizing twice with
spacing 2 yields 2/4, and with spacing 1 the second call is a no-op. -/
theorem C5_normalize_not_idempotent_witness :
    (((sampleDelta 2 5 7).normalize 2 2 2).normalize 2 2 2).dels 0 0
        = (sampleDelta 2 5 7).dels 0 0 / (spacing6 2 2 2 0) ^ 2 ∧
    (spacing6 1 1 1 0 = 1 →
      (((sampleDelta 2 5 7).normalize 1 1 1).normalize 1 1 1).dels 0 0
        = ((sampleDelta 2 5 7).normalize 1 1 1).dels 0 0) :=
  ⟨(C5_normalize_not_idempotent (sampleDelta 2 5 7) rfl 2 2 2 0 0).1,
   (C5_normalize_not_idempotent (sampleDelta 2 5 7) rfl 1 1 1 0 0).2⟩

/-- Helper: the condid attribute of a shape isinside record is the id of
the leftmost primitive of the shape (every composite passes its left
operand condid on). -/
theorem isinside_condid {n : ℕ} (s : Shape) (xx yy zz : Fin n → ℚ)
    (aura : ℚ) : (s.isinside xx yy zz aura).condid = (s.leftCondid : ℚ) := by
  induction s with
  | prim p => rfl
  | cAnd l r ihl ihr => exact ihl
  | cOr l r ihl ihr => exact ihl
  | cMinus l r ihl ihr => exact ihl
  | cNot l ihl => exact ihl

/-- Helper: a record built through `ofFlags` from a 0/1 flag array stores
only 0 or its condid. -/
theorem ofFlags_val_cases {n : ℕ} (flags : Fin n → ℚ)
    (hf : ∀ k, flags k = 0 ∨ flags k = 1) (condid aura : ℚ) (j : Fin n) :
    (IsInside.ofFlags flags condid aura).isinside j = 0 ∨
      (IsInside.ofFlags flags condid aura).isinside j = condid := by
  rcases hf j with h | h <;> simp [IsInside.ofFlags, h]

/-- Helper: every stored isinside value of a shape record is 0 or the
leftmost condid of the shape. -/
theorem isinside_val_cases {n : ℕ} (s : Shape) (xx yy zz : Fin n → ℚ)
    (aura : ℚ) (j : Fin n) :
    (s.isinside xx yy zz aura).isinside j = 0 ∨
      (s.isinside xx yy zz aura).isinside j = (s.leftCondid : ℚ) := by
  cases s with
  | prim p =>
    simp only [Shape.isinside, IsInside.ofDistance, Shape.leftCondid]
    by_cases hc : p.pdist (xx j) (yy j) (zz j) ≤ aura
    · exact Or.inr (if_pos hc)
    · exact Or.inl (if_neg hc)
  | cAnd l r =>
    simp only [Shape.isinside, IsInside.mul, IsInside.ofFlags, Shape.leftCondid]
    by_cases hc : (l.isinside xx yy zz aura).isinside j ≠ 0 ∧
        (r.isinside xx yy zz aura).isinside j ≠ 0
    · exact Or.inr (by rw [if_pos hc, one_mul, isinside_condid])
    · exact Or.inl (by rw [if_neg hc, zero_mul])
  | cOr l r =>
    simp only [Shape.isinside, IsInside.add, IsInside.ofFlags, Shape.leftCondid]
    by_cases hc : (l.isinside xx yy zz aura).isinside j ≠ 0 ∨
        (r.isinside xx yy zz aura).isinside j ≠ 0
    · exact Or.inr (by rw [if_pos hc, one_mul, isinside_condid])
    · exact Or.inl (by rw [if_neg hc, zero_mul])
  | cMinus l r =>
    simp only [Shape.isinside, IsInside.sub, IsInside.ofFlags, Shape.leftCondid]
    by_cases hc : (l.isinside xx yy zz aura).isinside j ≠ 0 ∧
        (r.isinside xx yy zz aura).isinside j = 0
    · exact Or.inr (by rw [if_pos hc, one_mul, isinside_condid])
    · exact Or.inl (by rw [if_neg hc, zero_mul])
  | cNot l =>
    simp only [Shape.isinside, IsInside.neg, IsInside.ofFlags, Shape.leftCondid]
    by_cases hc : (l.isinside xx yy zz aura).isinside j = 0
    · exact Or.inr (by rw [if_pos hc, one_mul, isinside_condid])
    · exact Or.inl (by rw [if_neg hc, zero_mul])

/-- C3 fails as stated: a shape with conductor id 0 has an identically zero
isinside record (the flag is multiplied by the id), so the NOT of such a
shape also reads false everywhere instead of the negation of the child
boolean. -/
theorem C3_counterexample :
    ((Shape.cNot (.prim primZero)).isinside zpt zpt zpt 0).inb 0
      ≠ (!((Shape.prim primZero).isinside zpt zpt zpt 0).inb 0) := by
  have h1 : ((Shape.prim primZero).isinside zpt zpt zpt 0).inb 0 = false := by
    simp [Shape.isinside, IsInside.ofDistance, IsInside.inb, primZero, zpt]
  have h2 : ((Shape.cNot (.prim primZero)).isinside zpt zpt zpt 0).inb 0
      = false := by
    simp [Shape.isinside, IsInside.ofDistance, IsInside.neg, IsInside.ofFlags,
      IsInside.inb, primZero, zpt]
  rw [h1, h2]
  decide

/-- C3 amended: provided the left operand has a nonzero leftmost conductor
id, the boolean reading of isinside on AND is the conjunction of the
children booleans, on OR the disjunction, and on NOT the negation (with a
zero id the composite record is identically zero and the OR and NOT
equivalences fail). -/
theorem C3_boolean_csg {n : ℕ} (a b : Shape) (xx yy zz : Fin n → ℚ)
    (aura : ℚ) (j : Fin n) (h : a.leftCondid ≠ 0) :
    ((Shape.cAnd a b).isinside xx yy zz aura).inb j
      = (((a.isinside xx yy zz aura).inb j) &&
         ((b.isinside xx yy zz aura).inb j)) ∧
    ((Shape.cOr a b).isinside xx yy zz aura).inb j
      = (((a.isinside xx yy zz aura).inb j) ||
         ((b.isinside xx yy zz aura).inb j)) ∧
    ((Shape.cNot a).isinside xx yy zz aura).inb j
      = (!((a.isinside xx yy zz aura).inb j)) := by
  have hc : (a.isinside xx yy zz aura).condid ≠ 0 := by
    rw [isinside_condid]
    exact_mod_cast h
  refine ⟨?_, ?_, ?_⟩
  · show ((a.isinside xx yy zz aura).mul (b.isinside xx yy zz aura)).inb j = _
    by_cases hA : (a.isinside xx yy zz aura).isinside j ≠ 0 <;>
      by_cases hB : (b.isinside xx yy zz aura).isinside j ≠ 0 <;>
        simp [IsInside.inb, IsInside.mul, IsInside.ofFlags, hA, hB, hc]
  · show ((a.isinside xx yy zz aura).add (b.isinside xx yy zz aura)).inb j = _
    by_cases hA : (a.isinside xx yy zz aura).isinside j ≠ 0 <;>
      by_cases hB : (b.isinside xx yy zz aura).isinside j ≠ 0 <;>
        simp [IsInside.inb, IsInside.add, IsInside.ofFlags, hA, hB, hc]
  · show ((a.isinside xx yy zz aura).neg).inb j = _
    by_cases hA : (a.isinside xx yy zz aura).isinside j = 0 <;>
      simp [IsInside.inb, IsInside.neg, IsInside.ofFlags, hA, hc]

/-- Witness for C3 amended at two concrete primitives (ids 2 and 3, the
first containing the sample point and the second not). -/
theorem C3_boolean_csg_witness :
    ((Shape.cAnd (.prim primIn) (.prim primOut)).isinside zpt zpt zpt 0).inb 0
      = (((Shape.prim primIn).isinside zpt zpt zpt 0).inb 0 &&
         ((Shape.prim primOut).isinside zpt zpt zpt 0).inb 0) ∧
    ((Shape.cOr (.prim primIn) (.prim primOut)).isinside zpt zpt zpt 0).inb 0
      = (((Shape.prim primIn).isinside zpt zpt zpt 0).inb 0 ||
         ((Shape.prim primOut).isinside zpt zpt zpt 0).inb 0) ∧
    ((Shape.cNot (.prim primIn)).isinside zpt zpt zpt 0).inb 0
      = (!((Shape.prim primIn).isinside zpt zpt zpt 0).inb 0) :=
  C3_boolean_csg (.prim primIn) (.prim primOut) zpt zpt zpt 0 0 (by decide)

/-- C10: the conductor id reported by a composite isinside record is the
leftmost child id: every nonzero stored value of AND, OR and MINUS records
equals the left operand leftmost condid, and for OR a point lying only
inside the right child is still reported with the left id, not the right
one. -/
theorem C10_leftmost_condid {n : ℕ} (a b : Shape) (xx yy zz : Fin n → ℚ)
    (aura : ℚ) (j : Fin n) :
    ((Shape.cOr a b).isinside xx yy zz aura).condid = (a.leftCondid : ℚ) ∧
    (((Shape.cOr a b).isinside xx yy zz aura).isinside j ≠ 0 →
      ((Shape.cOr a b).isinside xx yy zz aura).isinside j
        = (a.leftCondid : ℚ)) ∧
    (((Shape.cAnd a b).isinside xx yy zz aura).isinside j ≠ 0 →
      ((Shape.cAnd a b).isinside xx yy zz aura).isinside j
        = (a.leftCondid : ℚ)) ∧
    (((Shape.cMinus a b).isinside xx yy zz aura).isinside j ≠ 0 →
      ((Shape.cMinus a b).isinside xx yy zz aura).isinside j
        = (a.leftCondid : ℚ)) ∧
    ((b.isinside xx yy zz aura).isinside j ≠ 0 →
      ((Shape.cOr a b).isinside xx yy zz aura).isinside j
        = (a.leftCondid : ℚ)) ∧
    (a.leftCondid ≠ b.leftCondid →
      (b.isinside xx yy zz aura).isinside j ≠ 0 →
      ((Shape.cOr a b).isinside xx yy zz aura).isinside j
        ≠ (b.leftCondid : ℚ)) := by
  have hor : (b.isinside xx yy zz aura).isinside j ≠ 0 →
      ((Shape.cOr a b).isinside xx yy zz aura).isinside j
        = (a.leftCondid : ℚ) := by
    intro hB
    show (if (a.isinside xx yy zz aura).isinside j ≠ 0 ∨
        (b.isinside xx yy zz aura).isinside j ≠ 0 then (1 : ℚ) else 0) *
        (a.isinside xx yy zz aura).condid = (a.leftCondid : ℚ)
    rw [if_pos (Or.inr hB), one_mul, isinside_condid]
  refine ⟨isinside_condid (Shape.cOr a b) xx yy zz aura, ?_, ?_, ?_, hor, ?_⟩
  · intro hnz
    rcases isinside_val_cases (Shape.cOr a b) xx yy zz aura j with h0 | hv
    · exact absurd h0 hnz
    · exact hv
  · intro hnz
    rcases isinside_val_cases (Shape.cAnd a b) xx yy zz aura j with h0 | hv
    · exact absurd h0 hnz
    · exact hv
  · intro hnz
    rcases isinside_val_cases (Shape.cMinus a b) xx yy zz aura j with h0 | hv
    · exact absurd h0 hnz
    · exact hv
  · intro hne hB
    rw [hor hB]
    exact_mod_cast hne

/-- Witness for C10: with left id 3 (point outside) and right id 5 (point
inside), the OR record reports id 3 at the point, not 5. -/
theorem C10_leftmost_condid_witness :
    ((Shape.cOr (.prim primOut) (.prim primIn5)).isinside zpt zpt zpt
        0).isinside 0 = (((3 : ℤ)) : ℚ) ∧
    ((Shape.cOr (.prim primOut) (.prim primIn5)).isinside zpt zpt zpt
        0).isinside 0 ≠ (((5 : ℤ)) : ℚ) := by
  obtain ⟨-, -, -, -, h5, h6⟩ :=
    C10_leftmost_condid (.prim primOut) (.prim primIn5) zpt zpt zpt 0 0
  have hB : ((Shape.prim primIn5).isinside zpt zpt zpt 0).isinside 0 ≠ 0 := by
    norm_num [Shape.isinside, IsInside.ofDistance, primIn5, primIn, primZero,
      zpt]
  exact ⟨h5 hB, h6 (by decide) hB⟩

/-- C6: in every composite intercept combination, when neither candidate
point lies within the surface fuzz 1e-9 of the combined surface the result
is the sentinel (`largepos` coordinates, both angles 0) and no error is
raised (the combination is total); when both candidates lie within the
fuzz, the candidate strictly closer to the original query point is chosen;
and for MINUS a chosen right-hand candidate has its theta offset by pi. -/
theorem C6_intercept_selection {n : ℕ} (s r : Intercept n)
    (sdist rdist : Fin n → ℚ) (addpi : ℚ) (j : Fin n) :
    (¬ min |sdist j| |rdist j| < surffuzz →
      (s.binaryop r sdist rdist addpi).xi j = largepos ∧
      (s.binaryop r sdist rdist addpi).yi j = largepos ∧
      (s.binaryop r sdist rdist addpi).zi j = largepos ∧
      (s.binaryop r sdist rdist addpi).itheta j = 0 ∧
      (s.binaryop r sdist rdist addpi).iphi j = 0) ∧
    (|sdist j| < surffuzz → |rdist j| < surffuzz →
      (s.magsq j < r.magsq j →
        (s.binaryop r sdist rdist addpi).xi j = s.xi j ∧
        (s.binaryop r sdist rdist addpi).yi j = s.yi j ∧
        (s.binaryop r sdist rdist addpi).zi j = s.zi j) ∧
      (r.magsq j < s.magsq j →
        (s.binaryop r sdist rdist addpi).xi j = r.xi j ∧
        (s.binaryop r sdist rdist addpi).yi j = r.yi j ∧
        (s.binaryop r sdist rdist addpi).zi j = r.zi j)) ∧
    (min |sdist j| |rdist j| < surffuzz →
      interceptChoose |sdist j| |rdist j| (s.magsq j) (r.magsq j) = false →
      (s.minusOp r sdist rdist).itheta j = r.itheta j + floatPi) := by
  refine ⟨?_, ?_, ?_⟩
  · intro hdd
    simp only [Intercept.binaryop]
    exact ⟨if_neg hdd, if_neg hdd, if_neg hdd, if_neg hdd, if_neg hdd⟩
  · intro hs hr
    have hdd : min |sdist j| |rdist j| < surffuzz :=
      (min_le_left _ _).trans_lt hs
    constructor
    · intro hds
      have hcc : interceptChoose |sdist j| |rdist j| (s.magsq j) (r.magsq j)
          = true := by
        unfold interceptChoose
        rw [if_pos ⟨hs, hr⟩]
        exact decide_eq_true hds
      simp only [Intercept.binaryop]
      rw [if_pos hdd, if_pos hdd, if_pos hdd]
      simp only [hcc, if_true]
      exact ⟨trivial, trivial, trivial⟩
    · intro hdr
      have hcc : interceptChoose |sdist j| |rdist j| (s.magsq j) (r.magsq j)
          = false := by
        unfold interceptChoose
        rw [if_pos ⟨hs, hr⟩]
        exact decide_eq_false (not_lt.mpr hdr.le)
      simp only [Intercept.binaryop]
      rw [if_pos hdd, if_pos hdd, if_pos hdd]
      simp only [hcc, Bool.false_eq_true, if_false]
      exact ⟨trivial, trivial, trivial⟩
  · intro hdd hcc
    simp only [Intercept.minusOp, Intercept.binaryop]
    rw [if_pos hdd]
    simp only [hcc, Bool.false_eq_true, if_false]

/-- Witness for C6 at concrete one-point records: distances 1 from the
combined surface give the sentinel; zero distances give the candidate
closer to the origin; for MINUS with only the right candidate on the
surface, the right theta is offset by pi. -/
theorem C6_intercept_selection_witness :
    ((icptA.binaryop icptB (fun _ => 1) (fun _ => 1) 0).xi 0 = largepos ∧
     (icptA.binaryop icptB (fun _ => 1) (fun _ => 1) 0).itheta 0 = 0) ∧
    (icptA.binaryop icptB (fun _ => 0) (fun _ => 0) 0).xi 0 = icptA.xi 0 ∧
    (icptA.minusOp icptB (fun _ => 1) (fun _ => 0)).itheta 0
      = icptB.itheta 0 + floatPi := by
  have hfar : ¬ min |(1 : ℚ)| |(1 : ℚ)| < surffuzz := by
    norm_num [surffuzz]
  have hnear : |(0 : ℚ)| < surffuzz := by
    norm_num [surffuzz]
  have hmag : icptA.magsq 0 < icptB.magsq 0 := by
    norm_num [Intercept.magsq, icptA, icptB, zpt]
  have h1 := (C6_intercept_selection icptA icptB (fun _ => 1) (fun _ => 1)
    0 0).1 hfar
  have h2 := ((C6_intercept_selection icptA icptB (fun _ => 0) (fun _ => 0)
    0 0).2.1 hnear hnear).1 hmag
  have h3 := (C6_intercept_selection icptA icptB (fun _ => 1) (fun _ => 0)
    0 0).2.2 (by norm_num [surffuzz]) (by
      unfold interceptChoose
      rw [if_neg (by norm_num [surffuzz])]
      exact decide_eq_false (by norm_num))
  exact ⟨⟨h1.1, h1.2.2.2.1⟩, h2.1, h3⟩

/-- C7: installing a classified record routes every parity -1 point into
the interior array with voltage and id taken solely from the direction-0
(-x) entries, and every parity 0 and 1 point into the even and odd subgrid
arrays with all six distances (times the Neumann sign), voltages and ids;
moreover every interior row beyond the preexisting ones is of that
direction-0 form. -/
theorem C7_install_routing {n : ℕ} (a : Delta n) (par : Fin n → ℤ)
    (hp : a.parity = some par) (c : Conductors) (j : Fin n) :
    (par j = -1 →
      (⟨a.ix j, a.iy j, a.iz j, a.vs 0 j, a.ns 0 j, a.mglevel j⟩ : InteriorRow)
        ∈ (a.install c).interior) ∧
    (∀ row ∈ (a.install c).interior, row ∈ c.interior ∨
      ∃ k, par k = -1 ∧
        row = ⟨a.ix k, a.iy k, a.iz k, a.vs 0 k, a.ns 0 k, a.mglevel k⟩) ∧
    (par j = 0 →
      (⟨a.ix j, a.iy j, a.iz j,
        fun i => (if a.neumann then -1 else 1) * a.dels i j,
        fun i => a.vs i j, fun i => a.ns i j, a.mglevel j⟩ : SubgridRow)
        ∈ (a.install c).evensubgrid) ∧
    (par j = 1 →
      (⟨a.ix j, a.iy j, a.iz j,
        fun i => (if a.neumann then -1 else 1) * a.dels i j,
        fun i => a.vs i j, fun i => a.ns i j, a.mglevel j⟩ : SubgridRow)
        ∈ (a.install c).oddsubgrid) := by
  unfold Delta.install
  rw [hp]
  refine ⟨?_, ?_, ?_, ?_⟩
  · intro hj
    refine List.mem_append_right _ (List.mem_map.mpr ⟨j, ?_, rfl⟩)
    exact List.mem_filter.mpr ⟨List.mem_finRange j, decide_eq_true hj⟩
  · intro row hrow
    rcases List.mem_append.mp hrow with hold | hnew
    · exact Or.inl hold
    · obtain ⟨k, hk, hrk⟩ := List.mem_map.mp hnew
      exact Or.inr ⟨k, of_decide_eq_true (List.mem_filter.mp hk).2, hrk.symm⟩
  · intro hj
    refine List.mem_append_right _ (List.mem_map.mpr ⟨j, ?_, rfl⟩)
    exact List.mem_filter.mpr ⟨List.mem_finRange j, decide_eq_true hj⟩
  · intro hj
    refine List.mem_append_right _ (List.mem_map.mpr ⟨j, ?_, rfl⟩)
    exact List.mem_filter.mpr ⟨List.mem_finRange j, decide_eq_true hj⟩

/-- Witness for C7 at three classified one-point records: a deep interior
point lands in the interior array with the direction-0 voltage and id, and
the two surface points land in the even and odd subgrid arrays. -/
theorem C7_install_routing_witness :
    (⟨deltaInterior.ix 0, deltaInterior.iy 0, deltaInterior.iz 0,
      deltaInterior.vs 0 0, deltaInterior.ns 0 0, deltaInterior.mglevel 0⟩ :
        InteriorRow) ∈ (deltaInterior.install conductors0).interior ∧
    (⟨deltaEven.ix 0, deltaEven.iy 0, deltaEven.iz 0,
      fun i => (if deltaEven.neumann then -1 else 1) * deltaEven.dels i 0,
      fun i => deltaEven.vs i 0, fun i => deltaEven.ns i 0,
      deltaEven.mglevel 0⟩ : SubgridRow)
        ∈ (deltaEven.install conductors0).evensubgrid ∧
    (⟨deltaOdd.ix 0, deltaOdd.iy 0, deltaOdd.iz 0,
      fun i => (if deltaOdd.neumann then -1 else 1) * deltaOdd.dels i 0,
      fun i => deltaOdd.vs i 0, fun i => deltaOdd.ns i 0,
      deltaOdd.mglevel 0⟩ : SubgridRow)
        ∈ (deltaOdd.install conductors0).oddsubgrid := by
  refine ⟨?_, ?_, ?_⟩
  · exact (C7_install_routing deltaInterior _ rfl conductors0 0).1 (by decide)
  · exact (C7_install_routing deltaEven _ rfl conductors0 0).2.2.1 (by decide)
  · exact (C7_install_routing deltaOdd _ rfl conductors0 0).2.2.2 (by decide)

/-- Helper: unfolding equation of `getdata` on an OR composite. -/
theorem getdata_or_eq (g : Grid) (dfill : ℚ) (l r : Shape)
    (h : g.checkoverlap (Shape.cOr l r).getextent = true) :
    g.getdata dfill (.cOr l r)
      = (g.getdata dfill l).bind fun rl =>
          (g.getdata dfill r).map fun rr => rl ++ rr := by
  have hunf : g.getdata dfill (.cOr l r)
      = if g.checkoverlap (Shape.cOr l r).getextent then
          (g.getdata dfill l).bind fun rl =>
            (g.getdata dfill r).map fun rr => rl ++ rr
        else some [] := rfl
  rw [hunf, if_pos h]

/-- Helper: a shape whose extent misses the grid is skipped entirely. -/
theorem getdata_no_overlap (g : Grid) (dfill : ℚ) (a : Shape)
    (h : g.checkoverlap a.getextent = false) : g.getdata dfill a = some [] := by
  cases a with
  | prim pp =>
    have hunf : g.getdata dfill (.prim pp)
        = if g.checkoverlap (Shape.prim pp).getextent then
            ((Shape.prim pp).griddistance
              (g.meshPts (Shape.prim pp).getextent)).map
              fun d => ((d.normalize g.dx g.dy g.dz).setparity dfill).rows
          else some [] := rfl
    rw [hunf, h]
    simp
  | cAnd l r =>
    have hunf : g.getdata dfill (.cAnd l r)
        = if g.checkoverlap (Shape.cAnd l r).getextent then
            ((Shape.cAnd l r).griddistance
              (g.meshPts (Shape.cAnd l r).getextent)).map
              fun d => ((d.normalize g.dx g.dy g.dz).setparity dfill).rows
          else some [] := rfl
    rw [hunf, h]
    simp
  | cOr l r =>
    have hunf : g.getdata dfill (.cOr l r)
        = if g.checkoverlap (Shape.cOr l r).getextent then
            (g.getdata dfill l).bind fun rl =>
              (g.getdata dfill r).map fun rr => rl ++ rr
          else some [] := rfl
    rw [hunf, h]
    simp
  | cMinus l r =>
    have hunf : g.getdata dfill (.cMinus l r)
        = if g.checkoverlap (Shape.cMinus l r).getextent then
            ((Shape.cMinus l r).griddistance
              (g.meshPts (Shape.cMinus l r).getextent)).map
              fun d => ((d.normalize g.dx g.dy g.dz).setparity dfill).rows
          else some [] := rfl
    rw [hunf, h]
    simp
  | cNot l =>
    have hunf : g.getdata dfill (.cNot l)
        = if g.checkoverlap (Shape.cNot l).getextent then
            ((Shape.cNot l).griddistance
              (g.meshPts (Shape.cNot l).getextent)).map
              fun d => ((d.normalize g.dx g.dy g.dz).setparity dfill).rows
          else some [] := rfl
    rw [hunf, h]
    simp

/-- Helper: the parity component written by `setparity`. -/
theorem setparity_parity {n : ℕ} (a : Delta n) (dfill : ℚ) :
    (a.setparity dfill).parity = some (fun j =>
      classifyParity (if a.neumann then 0 else dfill) (a.ix j) (a.iy j)
        (a.iz j) (fun i => a.dels i j)) := rfl

/-- Helper: when every point of a classified record is below the far
threshold, cleaning keeps all of them. -/
theorem rows_length_all_kept {n : ℕ} (a : Delta n) (par : Fin n → ℤ)
    (hp : a.parity = some par) (h : ∀ j, par j < 2) :
    a.rows.length = n := by
  unfold Delta.rows
  rw [hp]
  have hf : ((List.finRange n).filter (fun j => decide (par j < 2)))
      = List.finRange n :=
    List.filter_eq_self.mpr (fun j _ => decide_eq_true (h j))
  rw [List.length_map, hf, List.length_finRange]

/-- Helper: `getdata` on a Dirichlet primitive whose classification keeps
every mesh point accumulates exactly one row per pruned mesh point. -/
theorem getdata_prim_all_kept (g : Grid) (dfill : ℚ) (p : PrimShape)
    (hne : p.neumann = false)
    (hov : g.checkoverlap (Shape.prim p).getextent = true)
    (hkeep : ∀ q : GridPt, classifyParity dfill q.ix q.iy q.iz
      (fun i => p.gdist i q.x q.y q.z / spacing6 g.dx g.dy g.dz i) < 2) :
    (g.getdata dfill (.prim p)).map List.length
      = some (g.meshPts (Shape.prim p).getextent).length := by
  have hunf : g.getdata dfill (.prim p)
      = if g.checkoverlap (Shape.prim p).getextent then
          ((Shape.prim p).griddistance (g.meshPts (Shape.prim p).getextent)).map
            fun d => ((d.normalize g.dx g.dy g.dz).setparity dfill).rows
        else some [] := rfl
  rw [hunf, if_pos hov]
  set pts := g.meshPts (Shape.prim p).getextent with hpts
  have hgd : (Shape.prim p).griddistance pts = some (primDelta p pts) := rfl
  rw [hgd, Option.map_some', Option.map_some']
  have hXne : ((primDelta p pts).normalize g.dx g.dy g.dz).neumann = false := by
    rw [normalize_neumann]
    exact hne
  have hdels := normalize_dels_of_not_neumann (primDelta p pts) hne g.dx g.dy g.dz
  have h : ∀ j, classifyParity
      (if ((primDelta p pts).normalize g.dx g.dy g.dz).neumann then 0 else dfill)
      (((primDelta p pts).normalize g.dx g.dy g.dz).ix j)
      (((primDelta p pts).normalize g.dx g.dy g.dz).iy j)
      (((primDelta p pts).normalize g.dx g.dy g.dz).iz j)
      (fun i => ((primDelta p pts).normalize g.dx g.dy g.dz).dels i j) < 2 := by
    intro j
    have e1 : (if ((primDelta p pts).normalize g.dx g.dy g.dz).neumann
        then 0 else dfill) = dfill := by
      rw [hXne]
      rfl
    have e2 : (fun i => ((primDelta p pts).normalize g.dx g.dy g.dz).dels i j)
        = fun i => p.gdist i (pts.get j).x (pts.get j).y (pts.get j).z /
          spacing6 g.dx g.dy g.dz i := by
      funext i
      rw [hdels]
      rfl
    rw [e1, e2, normalize_ix, normalize_iy, normalize_iz]
    exact hkeep (pts.get j)
  exact congrArg some
    (rows_length_all_kept (((primDelta p pts).normalize g.dx g.dy g.dz).setparity
      dfill) _ (setparity_parity _ dfill) h)

/-- Helper: sampling an OR of two Dirichlet primitives as a single shape
(the combined record takes the pointwise smaller distance) accumulates one
row per mesh point of the union extent when every combined classification
is below the far threshold. -/
theorem getdataAsOne_orPrim_all_kept (g : Grid) (dfill : ℚ) (p q : PrimShape)
    (hpe : p.neumann = false) (hqe : q.neumann = false)
    (hov : g.checkoverlap (Shape.cOr (.prim p) (.prim q)).getextent = true)
    (hkeep : ∀ pt : GridPt, classifyParity dfill pt.ix pt.iy pt.iz
      (fun i => (if q.gdist i pt.x pt.y pt.z < p.gdist i pt.x pt.y pt.z
          then q.gdist i pt.x pt.y pt.z else p.gdist i pt.x pt.y pt.z) /
        spacing6 g.dx g.dy g.dz i) < 2) :
    (g.getdataAsOne dfill (.cOr (.prim p) (.prim q))).map List.length
      = some (g.meshPts (Shape.cOr (.prim p) (.prim q)).getextent).length := by
  unfold Grid.getdataAsOne
  rw [if_pos hov]
  set pts := g.meshPts (Shape.cOr (.prim p) (.prim q)).getextent with hpts
  have hnm : (primDelta p pts).neumann = (primDelta q pts).neumann := by
    show p.neumann = q.neumann
    rw [hpe, hqe]
  have hgd : (Shape.cOr (.prim p) (.prim q)).griddistance pts
      = some { primDelta p pts with
          dels := fun i j =>
            if (primDelta q pts).dels i j < (primDelta p pts).dels i j
            then (primDelta q pts).dels i j else (primDelta p pts).dels i j
          vs := fun i j =>
            if (primDelta q pts).dels i j < (primDelta p pts).dels i j
            then (primDelta q pts).vs i j else (primDelta p pts).vs i j
          ns := fun i j =>
            if (primDelta q pts).dels i j < (primDelta p pts).dels i j
            then (primDelta q pts).ns i j else (primDelta p pts).ns i j
          mglevel := fun _ => 0
          parity := none
          neumann := (primDelta q pts).neumann } := by
    show (primDelta p pts).add (primDelta q pts) = _
    unfold Delta.add
    rw [if_pos hnm]
  rw [hgd, Option.map_some', Option.map_some']
  set R : Delta pts.length := { primDelta p pts with
      dels := fun i j =>
        if (primDelta q pts).dels i j < (primDelta p pts).dels i j
        then (primDelta q pts).dels i j else (primDelta p pts).dels i j
      vs := fun i j =>
        if (primDelta q pts).dels i j < (primDelta p pts).dels i j
        then (primDelta q pts).vs i j else (primDelta p pts).vs i j
      ns := fun i j =>
        if (primDelta q pts).dels i j < (primDelta p pts).dels i j
        then (primDelta q pts).ns i j else (primDelta p pts).ns i j
      mglevel := fun _ => 0
      parity := none
      neumann := (primDelta q pts).neumann } with hR
  have hRne : R.neumann = false := hqe
  have hXne : (R.normalize g.dx g.dy g.dz).neumann = false := by
    rw [normalize_neumann]
    exact hRne
  have hdels := normalize_dels_of_not_neumann R hRne g.dx g.dy g.dz
  have h : ∀ j, classifyParity
      (if (R.normalize g.dx g.dy g.dz).neumann then 0 else dfill)
      ((R.normalize g.dx g.dy g.dz).ix j)
      ((R.normalize g.dx g.dy g.dz).iy j)
      ((R.normalize g.dx g.dy g.dz).iz j)
      (fun i => (R.normalize g.dx g.dy g.dz).dels i j) < 2 := by
    intro j
    have e1 : (if (R.normalize g.dx g.dy g.dz).neumann then 0 else dfill)
        = dfill := by
      rw [hXne]
      rfl
    have e2 : (fun i => (R.normalize g.dx g.dy g.dz).dels i j)
        = fun i => (if q.gdist i (pts.get j).x (pts.get j).y (pts.get j).z <
            p.gdist i (pts.get j).x (pts.get j).y (pts.get j).z
          then q.gdist i (pts.get j).x (pts.get j).y (pts.get j).z
          else p.gdist i (pts.get j).x (pts.get j).y (pts.get j).z) /
          spacing6 g.dx g.dy g.dz i := by
      funext i
      rw [hdels]
      rfl
    rw [e1, e2, normalize_ix, normalize_iy, normalize_iz]
    exact hkeep (pts.get j)
  exact congrArg some
    (rows_length_all_kept ((R.normalize g.dx g.dy g.dz).setparity dfill) _
      (setparity_parity _ dfill) h)

theorem spacing6_one : ∀ i : Fin 6, spacing6 1 1 1 i = 1 := by
  intro i
  fin_cases i <;> rfl

theorem grid1_overlap_deep :
    grid1.checkoverlap (Shape.prim primDeep).getextent = true := by
  have hext : (Shape.prim primDeep).getextent
      = ⟨fun _ => -5, fun _ => 5⟩ := rfl
  have hmx : max (-5 : ℚ) (-10) = -5 := max_eq_left (by norm_num)
  have hmn : min (5 : ℚ) 10 = 5 := min_eq_left (by norm_num)
  simp only [Grid.checkoverlap, hext, grid1]
  rw [if_neg]
  push_neg
  rw [hmx, hmn]
  norm_num

theorem grid1_overlap_surf :
    grid1.checkoverlap (Shape.prim primSurf).getextent = true := by
  have hext : (Shape.prim primSurf).getextent
      = ⟨fun _ => -1, fun _ => 1⟩ := rfl
  have hmx : max (-1 : ℚ) (-10) = -1 := max_eq_left (by norm_num)
  have hmn : min (1 : ℚ) 10 = 1 := min_eq_left (by norm_num)
  simp only [Grid.checkoverlap, hext, grid1]
  rw [if_neg]
  push_neg
  rw [hmx, hmn]
  norm_num

theorem grid1_overlap_or :
    grid1.checkoverlap
      (Shape.cOr (.prim primDeep) (.prim primSurf)).getextent = true := by
  have hext : (Shape.cOr (.prim primDeep) (.prim primSurf)).getextent
      = ⟨fun _ => min (-5 : ℚ) (-1), fun _ => max (5 : ℚ) 1⟩ := rfl
  have hm1 : min (-5 : ℚ) (-1) = -5 := min_eq_left (by norm_num)
  have hm2 : max (5 : ℚ) 1 = 5 := max_eq_left (by norm_num)
  have hmx : max (-5 : ℚ) (-10) = -5 := max_eq_left (by norm_num)
  have hmn : min (5 : ℚ) 10 = 5 := min_eq_left (by norm_num)
  simp only [Grid.checkoverlap, hext, grid1, hm1, hm2]
  rw [if_neg]
  push_neg
  rw [hmx, hmn]
  norm_num

theorem grid1_mesh_deep :
    grid1.meshPts (Shape.prim primDeep).getextent = grid1.pts := by
  refine List.filter_eq_self.mpr ?_
  intro a ha
  have ha0 : a = ⟨0, 0, 0, 0, 0, 0⟩ := by
    simpa [grid1] using ha
  subst ha0
  refine decide_eq_true ?_
  have hext : (Shape.prim primDeep).getextent
      = ⟨fun _ => -5, fun _ => 5⟩ := rfl
  rw [hext]
  refine ⟨?_, ?_, ?_, ?_, ?_, ?_⟩ <;>
    norm_num [grid1, max_le_iff, le_min_iff]

theorem grid1_mesh_surf :
    grid1.meshPts (Shape.prim primSurf).getextent = grid1.pts := by
  refine List.filter_eq_self.mpr ?_
  intro a ha
  have ha0 : a = ⟨0, 0, 0, 0, 0, 0⟩ := by
    simpa [grid1] using ha
  subst ha0
  refine decide_eq_true ?_
  have hext : (Shape.prim primSurf).getextent
      = ⟨fun _ => -1, fun _ => 1⟩ := rfl
  rw [hext]
  refine ⟨?_, ?_, ?_, ?_, ?_, ?_⟩ <;>
    norm_num [grid1, max_le_iff, le_min_iff]

theorem grid1_mesh_or :
    grid1.meshPts (Shape.cOr (.prim primDeep) (.prim primSurf)).getextent
      = grid1.pts := by
  refine List.filter_eq_self.mpr ?_
  intro a ha
  have ha0 : a = ⟨0, 0, 0, 0, 0, 0⟩ := by
    simpa [grid1] using ha
  subst ha0
  refine decide_eq_true ?_
  have hext : (Shape.cOr (.prim primDeep) (.prim primSurf)).getextent
      = ⟨fun _ => min (-5 : ℚ) (-1), fun _ => max (5 : ℚ) 1⟩ := rfl
  have hm1 : min (-5 : ℚ) (-1) = -5 := min_eq_left (by norm_num)
  have hm2 : max (5 : ℚ) 1 = 5 := max_eq_left (by norm_num)
  rw [hext]
  refine ⟨?_, ?_, ?_, ?_, ?_, ?_⟩ <;>
    norm_num [grid1, hm1, hm2, max_le_iff, le_min_iff]

theorem keep_deep : ∀ q : GridPt, classifyParity 2 q.ix q.iy q.iz
    (fun i => primDeep.gdist i q.x q.y q.z / spacing6 1 1 1 i) < 2 := by
  intro q
  have hval : ∀ i : Fin 6,
      primDeep.gdist i q.x q.y q.z / spacing6 1 1 1 i = -5 := by
    intro i
    rw [spacing6_one i]
    norm_num [primDeep, primZero]
  have hint : ∀ i : Fin 6,
      primDeep.gdist i q.x q.y q.z / spacing6 1 1 1 i ≤ -2 := by
    intro i
    rw [hval i]
    norm_num
  simp only [classifyParity]
  rw [if_pos hint]
  norm_num

theorem keep_surf : ∀ q : GridPt, classifyParity 2 q.ix q.iy q.iz
    (fun i => primSurf.gdist i q.x q.y q.z / spacing6 1 1 1 i) < 2 := by
  intro q
  have hval : ∀ i : Fin 6,
      primSurf.gdist i q.x q.y q.z / spacing6 1 1 1 i = 0 := by
    intro i
    rw [spacing6_one i]
    norm_num [primSurf, primZero]
  have hno : ¬ ∀ i : Fin 6,
      primSurf.gdist i q.x q.y q.z / spacing6 1 1 1 i ≤ -2 := by
    intro hall
    have h0 := hall 0
    rw [hval 0] at h0
    norm_num at h0
  have hyes : ∃ i : Fin 6,
      -1 < primSurf.gdist i q.x q.y q.z / spacing6 1 1 1 i ∧
      primSurf.gdist i q.x q.y q.z / spacing6 1 1 1 i < 1 := by
    refine ⟨0, ?_⟩
    rw [hval 0]
    norm_num
  simp only [classifyParity]
  rw [if_neg hno, if_pos hyes]
  exact Int.emod_lt_of_pos _ (by norm_num)

theorem keep_or : ∀ pt : GridPt, classifyParity 2 pt.ix pt.iy pt.iz
    (fun i => (if primSurf.gdist i pt.x pt.y pt.z <
          primDeep.gdist i pt.x pt.y pt.z
        then primSurf.gdist i pt.x pt.y pt.z
        else primDeep.gdist i pt.x pt.y pt.z) / spacing6 1 1 1 i) < 2 := by
  intro pt
  have hval : ∀ i : Fin 6, (if primSurf.gdist i pt.x pt.y pt.z <
        primDeep.gdist i pt.x pt.y pt.z
      then primSurf.gdist i pt.x pt.y pt.z
      else primDeep.gdist i pt.x pt.y pt.z) / spacing6 1 1 1 i = -5 := by
    intro i
    rw [spacing6_one i, if_neg]
    · norm_num [primDeep, primZero]
    · norm_num [primDeep, primSurf, primZero]
  have hint : ∀ i : Fin 6, (if primSurf.gdist i pt.x pt.y pt.z <
        primDeep.gdist i pt.x pt.y pt.z
      then primSurf.gdist i pt.x pt.y pt.z
      else primDeep.gdist i pt.x pt.y pt.z) / spacing6 1 1 1 i ≤ -2 := by
    intro i
    rw [hval i]
    norm_num
  simp only [classifyParity]
  rw [if_pos hint]
  norm_num

/-- C8 amended: `getdata` on an OR composite whose union extent overlaps
the grid never samples the composite as one shape: it recursively
accumulates the left child data followed by the right child data, each
child checked and pruned against its own extent (a child whose extent
misses the grid contributes nothing).  The accumulated data need not
coincide with sampling the OR as a single shape against the union
extent. -/
theorem C8_or_decomposition (g : Grid) (dfill : ℚ) (l r : Shape)
    (h : g.checkoverlap (Shape.cOr l r).getextent = true) :
    (g.getdata dfill (.cOr l r)
      = (g.getdata dfill l).bind fun rl =>
          (g.getdata dfill r).map fun rr => rl ++ rr) ∧
    (g.checkoverlap l.getextent = false → g.getdata dfill l = some []) ∧
    (g.checkoverlap r.getextent = false → g.getdata dfill r = some []) :=
  ⟨getdata_or_eq g dfill l r h,
   getdata_no_overlap g dfill l, getdata_no_overlap g dfill r⟩

/-- Witness for C8 amended at the concrete one-point grid and two
overlapping primitives. -/
theorem C8_or_decomposition_witness :
    (grid1.getdata 2 (.cOr (.prim primDeep) (.prim primSurf))
      = (grid1.getdata 2 (.prim primDeep)).bind fun rl =>
          (grid1.getdata 2 (.prim primSurf)).map fun rr => rl ++ rr) ∧
    (grid1.checkoverlap (Shape.prim primDeep).getextent = false →
      grid1.getdata 2 (.prim primDeep) = some []) ∧
    (grid1.checkoverlap (Shape.prim primSurf).getextent = false →
      grid1.getdata 2 (.prim primSurf) = some []) :=
  C8_or_decomposition grid1 2 (.prim primDeep) (.prim primSurf)
    grid1_overlap_or

/-- C8 fails in its equivalence part: on the one-point grid, sampling
OR(deep, surface) recursively accumulates two rows (one per child: the
point is interior to the first child and a cut cell of the second), while
sampling the OR as a single shape against the union extent accumulates a
single combined row, so the accumulated conductor data differ. -/
theorem C8_counterexample :
    grid1.getdata 2 (.cOr (.prim primDeep) (.prim primSurf))
      ≠ grid1.getdataAsOne 2 (.cOr (.prim primDeep) (.prim primSurf)) := by
  have h1 : (grid1.getdata 2 (.prim primDeep)).map List.length = some 1 := by
    rw [getdata_prim_all_kept grid1 2 primDeep rfl grid1_overlap_deep
      keep_deep, grid1_mesh_deep]
    rfl
  have h2 : (grid1.getdata 2 (.prim primSurf)).map List.length = some 1 := by
    rw [getdata_prim_all_kept grid1 2 primSurf rfl grid1_overlap_surf
      keep_surf, grid1_mesh_surf]
    rfl
  have h3 : (grid1.getdataAsOne 2
      (.cOr (.prim primDeep) (.prim primSurf))).map List.length = some 1 := by
    rw [getdataAsOne_orPrim_all_kept grid1 2 primDeep primSurf rfl rfl
      grid1_overlap_or keep_or, grid1_mesh_or]
    rfl
  obtain ⟨xs, hxs, hxl⟩ : ∃ xs, grid1.getdata 2 (.prim primDeep) = some xs ∧
      xs.length = 1 := by
    cases ho : grid1.getdata 2 (.prim primDeep) with
    | none =>
      rw [ho] at h1
      simp at h1
    | some xs =>
      rw [ho, Option.map_some'] at h1
      exact ⟨xs, rfl, Option.some_inj.mp h1⟩
  obtain ⟨ys, hys, hyl⟩ : ∃ ys, grid1.getdata 2 (.prim primSurf) = some ys ∧
      ys.length = 1 := by
    cases ho : grid1.getdata 2 (.prim primSurf) with
    | none =>
      rw [ho] at h2
      simp at h2
    | some ys =>
      rw [ho, Option.map_some'] at h2
      exact ⟨ys, rfl, Option.some_inj.mp h2⟩
  obtain ⟨zs, hzs, hzl⟩ : ∃ zs, grid1.getdataAsOne 2
      (.cOr (.prim primDeep) (.prim primSurf)) = some zs ∧ zs.length = 1 := by
    cases ho : grid1.getdataAsOne 2 (.cOr (.prim primDeep) (.prim primSurf))
      with
    | none =>
      rw [ho] at h3
      simp at h3
    | some zs =>
      rw [ho, Option.map_some'] at h3
      exact ⟨zs, rfl, Option.some_inj.mp h3⟩
  intro heq
  have hor2 : grid1.getdata 2 (.cOr (.prim primDeep) (.prim primSurf))
      = some (xs ++ ys) := by
    rw [getdata_or_eq grid1 2 _ _ grid1_overlap_or, hxs, hys]
    rfl
  rw [hor2, hzs] at heq
  have hlen : (xs ++ ys).length = zs.length := by
    rw [Option.some_inj.mp heq]
  rw [List.length_append, hxl, hyl, hzl] at hlen
  norm_num at hlen

end Warp
